import Mathlib

/-!
Verification development for the Mantra-Baileys fork core:
the session lifecycle orchestrator (src/Utils/session-manager.ts),
the rate-limited outbound queue (src/Utils/rate-limiter.ts), and the
webhook fan-out dispatcher (WebhookBridge).

Each TypeScript class is shallowly embedded as explicit state passing:
JavaScript Map objects become association lists, `setTimeout` handles
become entries in an explicit pending-timer list, and event emission
becomes an append-only action log.  Machine numbers are Nat (clock
milliseconds) or Rat (the JS floating delays `reconnectDelayMs *
Math.pow(1.5, k)`); the claims never exercise float rounding.
-/

namespace MantraBaileys

/-- Lookup in an association list, mirroring JS `Map.get`. -/
def alookup {α : Type} (l : List (String × α)) (k : String) : Option α :=
  (l.find? (fun p => p.1 = k)).map (fun p => p.2)

/-- Insert-or-replace, mirroring JS `Map.set`. -/
def aset {α : Type} (l : List (String × α)) (k : String) (v : α) : List (String × α) :=
  match l with
  | [] => [(k, v)]
  | (k', v') :: rest => if k' = k then (k, v) :: rest else (k', v') :: aset rest k v

/-- Removal, mirroring JS `Map.delete`. -/
def aremove {α : Type} (l : List (String × α)) (k : String) : List (String × α) :=
  l.filter (fun p => ¬ p.1 = k)

theorem alookup_aset_self {α : Type} (l : List (String × α)) (k : String) (v : α) :
    alookup (aset l k v) k = some v := by
  induction l with
  | nil => simp [alookup, aset]
  | cons p rest ih =>
    obtain ⟨k', v'⟩ := p
    by_cases h : k' = k
    · simp [alookup, aset, h]
    · simp only [aset, if_neg h]
      simpa [alookup, List.find?, h] using ih

theorem alookup_aset_ne {α : Type} (l : List (String × α)) (k j : String) (v : α)
    (h : j ≠ k) : alookup (aset l k v) j = alookup l j := by
  have hkj : k ≠ j := Ne.symm h
  induction l with
  | nil => simp [alookup, aset, List.find?, hkj]
  | cons p rest ih =>
    obtain ⟨k', v'⟩ := p
    by_cases hk : k' = k
    · subst hk
      simp [alookup, aset, List.find?, hkj]
    · by_cases hj : k' = j
      · subst hj
        simp [alookup, aset, if_neg hk, List.find?]
      · simp only [aset, if_neg hk]
        simp only [alookup, List.find?] at ih ⊢
        simpa [hj] using ih

/-! ## Session manager (src/Utils/session-manager.ts) -/

namespace SM

/-- `SessionStatus` (session-manager.ts lines 9-14). -/
inductive SessionStatus
  | initializing
  | qr_ready
  | connected
  | disconnected
  | logged_out
deriving DecidableEq

/-- `SessionInfo` (session-manager.ts lines 16-24).  `connectedAt` is the
JS `Date` timestamp in milliseconds. -/
structure SessionInfo where
  id : String
  status : SessionStatus
  qr : Option String := none
  phoneNumber : Option String := none
  name : Option String := none
  connectedAt : Option ℚ := none
  error : Option String := none
deriving DecidableEq

/-- `SessionManagerConfig` after defaulting (constructor, lines 60-71).
The backoff multiplier 1.5 is hard-coded at line 209. -/
structure SMConfig where
  autoReconnect : Bool := true
  maxReconnectAttempts : Nat := 5
  reconnectDelayMs : ℚ := 3000
deriving DecidableEq

/-- `DisconnectReason.loggedOut` from the transport's Types module (that
module is not under src/); the Baileys logout status code is 401 — only
its distinctness from other close codes matters here. -/
def loggedOutCode : Nat := 401

/-- The fields of one `connection.update` payload consumed by the handler
(lines 164-217): `connection`, `lastDisconnect` (its Boom status code and
error message), `qr`; plus the values the open-branch reads from the
clock (`new Date()`) and from `sock.user`. -/
inductive ConnState
  | opened
  | closed
deriving DecidableEq

structure ConnUpdate where
  connection : Option ConnState := none
  statusCode : Option Nat := none
  errMsg : Option String := none
  qr : Option String := none
  now : ℚ := 0
  phone : Option String := none
  name : Option String := none
deriving DecidableEq

/-- Observable actions: the events emitted on the manager's EventEmitter,
plus a `booted` marker recording each `_boot(id)` invocation (needed to
observe reconnect re-boots).  `statusEv` records the `{ ...info }` copy
emitted by `_updateStatus` (line 232). -/
inductive SMAction
  | statusEv (info : SessionInfo)
  | qrEv (id : String) (qr : String)
  | connectedEv (id : String) (phone : String)
  | disconnectedEv (id : String) (reason : String)
  | destroyedEv (id : String)
  | booted (id : String)
deriving DecidableEq

/-- State of one `SessionManager` instance: the `sessions` and
`reconnectAttempts` maps (lines 54-55), the runtime's queue of reconnect
timers created at line 211 (the code keeps no handle to them), and the
log of emitted events. -/
structure SMState where
  sessions : List (String × SessionInfo)
  reconnectAttempts : List (String × Nat)
  pendingReconnects : List (String × ℚ)
  log : List SMAction
deriving DecidableEq

def SMState.empty : SMState := ⟨[], [], [], []⟩

/-- `_boot(id)` state effect (lines 149-160): reuse the registered info if
present, else a fresh `{ id, status: 'initializing' }`, and (re-)register
the session.  The socket construction and handler attachment are
represented by the `update` events later fed to `handleConnectionUpdate`. -/
def boot (st : SMState) (id : String) : SMState :=
  let info := (alookup st.sessions id).getD { id := id, status := .initializing }
  { st with
    sessions := aset st.sessions id info
    log := st.log ++ [.booted id] }

/-- `createSession(id)` (lines 73-84): duplicate ids throw (modelled as a
no-op here; no claim concerns the duplicate path); otherwise
`_updateStatus` emits the initializing status (the session is not yet in
the map, so only the emit happens) and `_boot` registers the session. -/
def createSession (st : SMState) (id : String) : SMState :=
  if (alookup st.sessions id).isSome then st
  else
    let info : SessionInfo := { id := id, status := .initializing }
    boot { st with log := st.log ++ [.statusEv info] } id

/-- `destroySession(id)` (lines 86-95): absent ids throw (modelled as a
no-op); otherwise the socket is closed, the session and its attempt
counter are deleted and `session.destroyed` is emitted.  The reconnect
timer scheduled at line 211 is stored nowhere, so nothing here can cancel
it: `pendingReconnects` is left untouched. -/
def destroySession (st : SMState) (id : String) : SMState :=
  if (alookup st.sessions id).isSome then
    { st with
      sessions := aremove st.sessions id
      reconnectAttempts := aremove st.reconnectAttempts id
      log := st.log ++ [.destroyedEv id] }
  else st

/-- The `connection.update` handler (lines 164-217), for a registered
session with stored info `info0`.  The handler mutates the captured
`info` object in place and calls `_updateStatus`, which re-stores it and
emits a `{ ...info }` copy; here the mutated value is threaded through
and re-stored with `aset`.  Branch order follows the source: `qr`, then
`connection === 'open'`, then `connection === 'close'`. -/
def handleConnectionUpdate (cfg : SMConfig) (st : SMState) (id : String)
    (u : ConnUpdate) : SMState :=
  match alookup st.sessions id with
  | none => st
  | some info0 =>
    -- if (qr) { info.qr = qr; info.status = 'qr_ready'; ... } (lines 165-171)
    let step1 : SMState × SessionInfo :=
      match u.qr with
      | some q =>
        let i : SessionInfo := { info0 with qr := some q, status := .qr_ready }
        ({ st with
            sessions := aset st.sessions id i
            log := st.log ++ [.statusEv i, .qrEv id q] }, i)
      | none => (st, info0)
    let st1 := step1.1
    let info1 := step1.2
    match u.connection with
    | some .opened =>
      -- lines 173-184
      let i : SessionInfo :=
        { info1 with
          qr := none
          status := .connected
          connectedAt := some u.now
          phoneNumber := u.phone
          name := u.name
          error := none }
      { st1 with
        sessions := aset st1.sessions id i
        reconnectAttempts := aset st1.reconnectAttempts id 0
        log := st1.log ++ [.statusEv i, .connectedEv id (i.phoneNumber.getD "")] }
    | some .closed =>
      -- lines 186-216
      if u.statusCode = some loggedOutCode then
        let i : SessionInfo := { info1 with status := .logged_out, error := some "Logged out" }
        { st1 with
          sessions := aset st1.sessions id i
          log := st1.log ++ [.statusEv i, .disconnectedEv id "logged_out"] }
      else
        let i : SessionInfo := { info1 with status := .disconnected, error := u.errMsg }
        let st2 :=
          { st1 with
            sessions := aset st1.sessions id i
            log := st1.log ++ [.statusEv i, .disconnectedEv id (u.errMsg.getD "unknown")] }
        if cfg.autoReconnect ∧ (alookup st2.sessions id).isSome then
          let attempts := (alookup st2.reconnectAttempts id).getD 0 + 1
          let st3 := { st2 with reconnectAttempts := aset st2.reconnectAttempts id attempts }
          if attempts ≤ cfg.maxReconnectAttempts then
            { st3 with
              pendingReconnects :=
                st3.pendingReconnects
                  ++ [(id, cfg.reconnectDelayMs * (3 / 2 : ℚ) ^ (attempts - 1))] }
          else st3
        else st2
    | none => st1

/-- A pending reconnect timer (scheduled by `setTimeout(() => this._boot(id),
delay)` at line 211) fires: the runtime removes it from its queue and runs
`_boot(id)`.  Nothing consults the session registry first: `_boot`
re-registers `id` even if the session was destroyed meanwhile. -/
def fireReconnectTimer (st : SMState) (id : String) : SMState :=
  match st.pendingReconnects.find? (fun p => p.1 = id) with
  | none => st
  | some _ =>
    boot { st with
            pendingReconnects :=
              st.pendingReconnects.eraseP (fun p => p.1 = id) } id

/-- The orchestrator's external stimuli. -/
inductive SMEvent
  | create (id : String)
  | update (id : String) (u : ConnUpdate)
  | fireTimer (id : String)
  | destroy (id : String)

def smStep (cfg : SMConfig) (st : SMState) : SMEvent → SMState
  | .create id => createSession st id
  | .update id u => handleConnectionUpdate cfg st id u
  | .fireTimer id => fireReconnectTimer st id
  | .destroy id => destroySession st id

def runSM (cfg : SMConfig) (events : List SMEvent) : SMState :=
  events.foldl (smStep cfg) SMState.empty

/-- The per-session status trace: payloads of the emitted
`session.status` events, restricted to one id. -/
def statusTrace (st : SMState) (id : String) : List SessionStatus :=
  st.log.filterMap (fun a =>
    match a with
    | .statusEv i => if i.id = id then some i.status else none
    | _ => none)

/-- `hasSession(id)` (lines 109-111). -/
def hasSession (st : SMState) (id : String) : Bool :=
  (alookup st.sessions id).isSome

/-- A transport `connection.update` reporting `open`, with the clock at
1000 ms and `sock.user` giving phone `123`, name `Ann`. -/
def uopenEx : ConnUpdate :=
  { connection := some .opened, now := 1000, phone := some "123", name := some "Ann" }

/-- A transport close with a non-logout Boom status code (428,
`connectionClosed`). -/
def ucloseEx : ConnUpdate :=
  { connection := some .closed, statusCode := some 428, errMsg := some "Connection Closed" }

/-- Session `s1` is created, connects, closes with a non-logout code
(scheduling a reconnect timer), and is then destroyed while that timer is
still pending. -/
def zombieTrace : List SMEvent :=
  [.create "s1", .update "s1" uopenEx, .update "s1" ucloseEx, .destroy "s1"]

/-- Current registered status of a session. -/
def statusOf (st : SMState) (id : String) : Option SessionStatus :=
  (alookup st.sessions id).map (fun i => i.status)

/-- Reconnect attempt counter (`this.reconnectAttempts.get(id) ?? 0`). -/
def attemptsOf (st : SMState) (id : String) : Nat :=
  (alookup st.reconnectAttempts id).getD 0

/-- The status that one `connection.update` leaves behind, read off the
handler's three sequential branches (qr, then open, then close). -/
def updStatus (s : SessionStatus) (u : ConnUpdate) : SessionStatus :=
  match u.connection with
  | some .opened => .connected
  | some .closed => if u.statusCode = some loggedOutCode then .logged_out else .disconnected
  | none => if u.qr.isSome then .qr_ready else s

/-- Modelled from the spec: the §4.1 status-transition table.
`initializing → qr_ready → connected → disconnected → (initializing on
reconnect | logged_out)`, read generously: logout may also strike from
`connected`, and "a session may fail before ever reaching `connected`"
admits failure edges out of `initializing` and `qr_ready`. -/
def specTableEdge : SessionStatus → SessionStatus → Bool
  | .initializing, .qr_ready => true
  | .qr_ready, .connected => true
  | .connected, .disconnected => true
  | .disconnected, .initializing => true
  | .disconnected, .logged_out => true
  | .connected, .logged_out => true
  | .initializing, .disconnected => true
  | .initializing, .logged_out => true
  | .qr_ready, .disconnected => true
  | .qr_ready, .logged_out => true
  | _, _ => false

/-- A `connection.update` carrying only a QR request. -/
def uqrEx : ConnUpdate := { qr := some "ABC" }

/-- Create, pair, connect, lose the connection (non-logout), let the
reconnect timer re-boot, and have the new socket open directly. -/
def reconnectTrace : List SMEvent :=
  [.create "s1", .update "s1" uqrEx, .update "s1" uopenEx, .update "s1" ucloseEx,
   .fireTimer "s1", .update "s1" uopenEx]

end SM

/-- C1: the claim says `destroySession` cancels a pending reconnect timer
together with removing the session, so no boot for that id ever runs
after the destroy.  The code (session-manager.ts lines 86-95) deletes the
session and the attempt counter but keeps no handle to the `setTimeout`
created at line 211, so the timer survives the destroy; when it fires,
`_boot` (line 160) unconditionally re-registers the id.  Evaluating the
model on the failing trace: after `destroySession("s1")` the session is
gone yet the 3000 ms reconnect timer is still pending, and firing it runs
a boot after the destroy and re-creates the session (the zombie
reconnect the spec forbids). -/
theorem C1_destroy_then_timer_fires_zombie_boot :
    SM.hasSession (SM.runSM {} SM.zombieTrace) "s1" = false
    ∧ (SM.runSM {} SM.zombieTrace).pendingReconnects
        = [("s1", (3000 : ℚ) * (3 / 2 : ℚ) ^ (0 : Nat))]
    ∧ (3000 : ℚ) * (3 / 2 : ℚ) ^ (0 : Nat) = 3000
    ∧ SM.hasSession (SM.runSM {} (SM.zombieTrace ++ [.fireTimer "s1"])) "s1" = true
    ∧ (SM.runSM {} (SM.zombieTrace ++ [.fireTimer "s1"])).log =
      [.statusEv { id := "s1", status := .initializing },
       .booted "s1",
       .statusEv { id := "s1", status := .connected, phoneNumber := some "123",
                   name := some "Ann", connectedAt := some 1000 },
       .connectedEv "s1" "123",
       .statusEv { id := "s1", status := .disconnected, phoneNumber := some "123",
                   name := some "Ann", connectedAt := some 1000,
                   error := some "Connection Closed" },
       .disconnectedEv "s1" "Connection Closed",
       .destroyedEv "s1",
       .booted "s1"] := by
  refine ⟨by decide, by rfl, by norm_num, by decide, by decide⟩

/-- C4 counterexample: the claim says every status change follows the
§4.1 table.  On reconnect the code re-boots without touching the status
(`_boot`, line 159, reuses the stored info, still `disconnected`), so
when the new socket opens the observable change is `disconnected →
connected` — an edge the table does not contain (the table routes through
`initializing`).  The concrete trace below exhibits it. -/
theorem C4_counterexample_disconnected_to_connected :
    SM.statusTrace (SM.runSM {} SM.reconnectTrace) "s1"
      = [.initializing, .qr_ready, .connected, .disconnected, .connected]
    ∧ SM.specTableEdge .disconnected .connected = false := by
  exact ⟨by decide, by decide⟩

/-- C4 amended: status changes are driven only by transport
`connection.update` events — a `qr` payload yields `qr_ready`, `open`
yields `connected`, `close` yields `logged_out` (logout code) or
`disconnected` — and a reconnect re-boot (timer fire) leaves every
registered session's status unchanged.  In particular the orchestrator
never returns to `initializing` on reconnect: a reconnected session moves
`disconnected → qr_ready/connected` directly, replacing the table's
`disconnected → initializing` edge. -/
theorem C4_amended_status_changes_event_driven :
    (∀ (cfg : SM.SMConfig) (st : SM.SMState) (id : String) (u : SM.ConnUpdate)
        (s : SM.SessionStatus),
      SM.statusOf st id = some s →
      SM.statusOf (SM.smStep cfg st (.update id u)) id = some (SM.updStatus s u))
    ∧ (∀ (cfg : SM.SMConfig) (st : SM.SMState) (id j : String) (s : SM.SessionStatus),
      SM.statusOf st id = some s →
      SM.statusOf (SM.smStep cfg st (.fireTimer j)) id = some s) := by
  constructor
  · intro cfg st id u s hs
    obtain ⟨conn, code, emsg, qr, now, phone, name⟩ := u
    simp only [SM.statusOf, Option.map_eq_some'] at hs
    obtain ⟨info0, hl, hst⟩ := hs
    cases conn with
    | none =>
      cases qr with
      | none =>
        simp [SM.smStep, SM.handleConnectionUpdate, hl, SM.statusOf, SM.updStatus, hst]
      | some q =>
        simp [SM.smStep, SM.handleConnectionUpdate, hl, SM.statusOf, SM.updStatus,
          alookup_aset_self]
    | some c =>
      cases c with
      | opened =>
        cases qr <;>
          simp [SM.smStep, SM.handleConnectionUpdate, hl, SM.statusOf, SM.updStatus,
            alookup_aset_self]
      | closed =>
        by_cases hlo : code = some SM.loggedOutCode
        · cases qr <;>
            simp [SM.smStep, SM.handleConnectionUpdate, hl, SM.statusOf, SM.updStatus,
              alookup_aset_self, hlo]
        · cases qr
          all_goals
            simp [SM.smStep, SM.handleConnectionUpdate, hl, SM.statusOf, SM.updStatus,
              alookup_aset_self, hlo]
          all_goals split_ifs <;> simp [SM.statusOf, alookup_aset_self]
  · intro cfg st id j s hs
    simp only [SM.statusOf, Option.map_eq_some'] at hs
    obtain ⟨info0, hl, hst⟩ := hs
    simp only [SM.smStep, SM.fireReconnectTimer]
    cases hfind : st.pendingReconnects.find? (fun p => p.1 = j) with
    | none => simp [SM.statusOf, hl, hst]
    | some p =>
      by_cases hij : id = j
      · subst hij
        simp [SM.boot, SM.statusOf, hl, alookup_aset_self, hst]
      · simp [SM.boot, SM.statusOf, alookup_aset_ne _ _ _ _ hij, hl, hst]

/-- Witness for C4 amended, at a concrete one-session state: an `open`
update moves `initializing` to `updStatus initializing uopenEx =
connected`, and a timer fire leaves the status untouched. -/
theorem C4_amended_witness :
    SM.statusOf ⟨[("s1", { id := "s1", status := .initializing })], [], [], []⟩ "s1"
      = some .initializing
    ∧ SM.statusOf
        (SM.smStep {} ⟨[("s1", { id := "s1", status := .initializing })], [], [], []⟩
          (.update "s1" SM.uopenEx)) "s1"
      = some (SM.updStatus .initializing SM.uopenEx)
    ∧ SM.statusOf
        (SM.smStep {} ⟨[("s1", { id := "s1", status := .initializing })], [], [], []⟩
          (.fireTimer "s1")) "s1"
      = some .initializing :=
  ⟨by decide,
   C4_amended_status_changes_event_driven.1 {} _ "s1" SM.uopenEx .initializing (by decide),
   C4_amended_status_changes_event_driven.2 {} _ "s1" "s1" .initializing (by decide)⟩

/-- C5: on a non-logout close with `autoReconnect` on and the current
attempt counter `a` below `maxReconnectAttempts`, the handler first
increments the counter to `k = a + 1` and then schedules the k-th re-boot
after exactly `reconnectDelayMs * 1.5 ^ (k - 1)` milliseconds
(session-manager.ts lines 204-211, multiplier 1.5 hard-coded at 209); and
the next `open` resets the counter to 0 (line 180). -/
theorem C5_reconnect_backoff_delay :
    (∀ (cfg : SM.SMConfig) (st : SM.SMState) (id : String) (u : SM.ConnUpdate) (a : Nat),
      (alookup st.sessions id).isSome = true →
      SM.attemptsOf st id = a →
      cfg.autoReconnect = true →
      a < cfg.maxReconnectAttempts →
      u.connection = some .closed →
      u.statusCode ≠ some SM.loggedOutCode →
      SM.attemptsOf (SM.smStep cfg st (.update id u)) id = a + 1
      ∧ (SM.smStep cfg st (.update id u)).pendingReconnects
          = st.pendingReconnects ++ [(id, cfg.reconnectDelayMs * (3 / 2 : ℚ) ^ a)])
    ∧ (∀ (cfg : SM.SMConfig) (st : SM.SMState) (id : String) (u : SM.ConnUpdate),
      (alookup st.sessions id).isSome = true →
      u.connection = some .opened →
      SM.attemptsOf (SM.smStep cfg st (.update id u)) id = 0) := by
  constructor
  · intro cfg st id u a hsess hatt har hlt hconn hcode
    obtain ⟨conn, code, emsg, qr, now, phone, name⟩ := u
    simp only at hconn hcode
    subst hconn
    rw [Option.isSome_iff_exists] at hsess
    obtain ⟨info0, hl⟩ := hsess
    have hatt' : (alookup st.reconnectAttempts id).getD 0 = a := hatt
    have hle : (alookup st.reconnectAttempts id).getD 0 + 1 ≤ cfg.maxReconnectAttempts := by
      rw [hatt']
      omega
    cases qr <;>
      simp [SM.smStep, SM.handleConnectionUpdate, hl, hcode, SM.attemptsOf,
        alookup_aset_self, har, hle, ← hatt]
  · intro cfg st id u hsess hconn
    obtain ⟨conn, code, emsg, qr, now, phone, name⟩ := u
    simp only at hconn
    subst hconn
    rw [Option.isSome_iff_exists] at hsess
    obtain ⟨info0, hl⟩ := hsess
    cases qr <;>
      simp [SM.smStep, SM.handleConnectionUpdate, hl, SM.attemptsOf, alookup_aset_self]

/-- Witness for C5 at a concrete state with two prior attempts: the close
schedules the third attempt after `3000 * 1.5 ^ 2 = 6750` ms, and an open
resets the counter. -/
theorem C5_witness :
    (SM.attemptsOf
        (SM.smStep {} ⟨[("s1", { id := "s1", status := .connected })], [("s1", 2)], [], []⟩
          (.update "s1" SM.ucloseEx)) "s1" = 2 + 1
      ∧ (SM.smStep {} ⟨[("s1", { id := "s1", status := .connected })], [("s1", 2)], [], []⟩
          (.update "s1" SM.ucloseEx)).pendingReconnects
        = [] ++ [("s1", ({} : SM.SMConfig).reconnectDelayMs * (3 / 2 : ℚ) ^ 2)])
    ∧ ({} : SM.SMConfig).reconnectDelayMs * (3 / 2 : ℚ) ^ 2 = 6750
    ∧ SM.attemptsOf
        (SM.smStep {} ⟨[("s1", { id := "s1", status := .connected })], [("s1", 2)], [], []⟩
          (.update "s1" SM.uopenEx)) "s1" = 0 :=
  ⟨C5_reconnect_backoff_delay.1 {} _ "s1" SM.ucloseEx 2 (by decide) (by decide) (by decide)
      (by decide) (by decide) (by decide),
   by norm_num [SM.SMConfig.reconnectDelayMs],
   C5_reconnect_backoff_delay.2 {} _ "s1" SM.uopenEx (by decide) (by decide)⟩

/-! ## Reference semantics of `getInfo` / `listSessions` (C2)

`getInfo` (line 98) returns `this.sessions.get(id)?.info` — the very
object the `connection.update` handler mutates in place — and
`listSessions` (line 106) maps out the same objects.  Only
`_updateStatus` (line 232) spreads a copy, and only into the emitted
event.  To state aliasing in a pure language the JS object heap is made
explicit: a cell index stands for an object reference. -/

namespace SMRef

/-- The JS heap of `SessionInfo` objects: cell index = object reference. -/
structure RegState where
  heap : List SM.SessionInfo
  reg : List (String × Nat)
  emittedStatus : List SM.SessionInfo
deriving DecidableEq

/-- Reading through an object reference. -/
def derefInfo (h : RegState) (r : Nat) : Option SM.SessionInfo :=
  h.heap[r]?

/-- `getInfo(id)` (lines 97-99): hands back the stored reference itself,
performing no copy. -/
def getInfo (h : RegState) (id : String) : Option Nat :=
  alookup h.reg id

/-- `listSessions()` (lines 105-107): the same references, one per
registered session. -/
def listSessions (h : RegState) : List Nat :=
  h.reg.map (fun p => p.2)

/-- Modelled from the spec: the snapshot-copy reading of `getInfo` —
"pure, read-only snapshot copies" — i.e. the VALUE of the info at call
time, detached from the live object. -/
def getInfoSnapshot (h : RegState) (id : String) : Option SM.SessionInfo :=
  (getInfo h id).bind (derefInfo h)

/-- `createSession` allocating the session's info object (lines 159-160):
a fresh `{ id, status: 'initializing' }` cell, registered in the map. -/
def createSession (h : RegState) (id : String) : RegState :=
  let info : SM.SessionInfo := { id := id, status := .initializing }
  { heap := h.heap ++ [info]
    reg := aset h.reg id h.heap.length
    emittedStatus := h.emittedStatus ++ [info] }

/-- The open-branch mutation of the handler (lines 173-183): the fields
of the live object are reassigned in place, then `_updateStatus` emits a
`{ ...info }` copy of the now-current value. -/
def openMutate (i : SM.SessionInfo) (now : ℚ) (phone name : Option String) :
    SM.SessionInfo :=
  { i with
    qr := none
    status := .connected
    connectedAt := some now
    phoneNumber := phone
    name := name
    error := none }

def openTransition (h : RegState) (id : String) (now : ℚ) (phone name : Option String) :
    RegState :=
  match alookup h.reg id with
  | none => h
  | some r =>
    match h.heap[r]? with
    | none => h
    | some i =>
      let i2 := openMutate i now phone name
      { h with
        heap := h.heap.set r i2
        emittedStatus := h.emittedStatus ++ [i2] }

end SMRef

/-- C2 counterexample: the claim says `getInfo` returns a read-only
snapshot copy that later transitions leave unchanged.  In the code it
returns the live object: after `createSession("s1")`, `getInfo` hands out
reference 0 whose value reads `initializing`; once the connected
transition mutates the session in place, reading through that SAME
previously-returned reference now yields `connected` — the "snapshot"
changed under the caller. -/
theorem C2_counterexample_live_reference :
    SMRef.getInfo (SMRef.createSession ⟨[], [], []⟩ "s1") "s1" = some 0
    ∧ (SMRef.derefInfo (SMRef.createSession ⟨[], [], []⟩ "s1") 0).map
        (fun i => i.status) = some .initializing
    ∧ (SMRef.derefInfo
        (SMRef.openTransition (SMRef.createSession ⟨[], [], []⟩ "s1") "s1" 1000
          (some "123") (some "Ann")) 0).map
        (fun i => i.status) = some .connected := by
  exact ⟨by decide, by decide, by decide⟩

/-- C2 amended: `getInfo` and `listSessions` return the live info
references, not copies — after a later connected transition the registry
still holds the same reference, reading through the previously returned
reference observes the new status, and only the emitted `session.status`
payloads are copies taken at emit time (appended, earlier copies
untouched). -/
theorem C2_amended_getInfo_returns_live_reference :
    ∀ (h : SMRef.RegState) (id : String) (r : Nat) (i : SM.SessionInfo)
      (now : ℚ) (phone name : Option String),
      SMRef.getInfo h id = some r →
      h.heap[r]? = some i →
      SMRef.getInfo (SMRef.openTransition h id now phone name) id = some r
      ∧ SMRef.listSessions (SMRef.openTransition h id now phone name) = SMRef.listSessions h
      ∧ SMRef.derefInfo (SMRef.openTransition h id now phone name) r
          = some (SMRef.openMutate i now phone name)
      ∧ (SMRef.openTransition h id now phone name).emittedStatus
          = h.emittedStatus ++ [SMRef.openMutate i now phone name] := by
  intro h id r i now phone name hget hcell
  have hr : r < h.heap.length := by
    have := List.getElem?_eq_some_iff.mp hcell
    exact this.1
  simp only [SMRef.getInfo] at hget
  refine ⟨?_, ?_, ?_, ?_⟩ <;>
    simp [SMRef.openTransition, hget, hcell, SMRef.getInfo, SMRef.listSessions,
      SMRef.derefInfo, List.getElem?_set_self, hr]

/-- Witness for C2 amended at the concrete one-session heap. -/
theorem C2_amended_witness :
    SMRef.getInfo (SMRef.createSession ⟨[], [], []⟩ "s1") "s1" = some 0
    ∧ (SMRef.createSession ⟨[], [], []⟩ "s1").heap[0]?
        = some { id := "s1", status := .initializing }
    ∧ SMRef.derefInfo
        (SMRef.openTransition (SMRef.createSession ⟨[], [], []⟩ "s1") "s1" 1000
          (some "123") (some "Ann")) 0
      = some (SMRef.openMutate { id := "s1", status := .initializing } 1000
          (some "123") (some "Ann")) :=
  ⟨by decide, by decide,
   (C2_amended_getInfo_returns_live_reference (SMRef.createSession ⟨[], [], []⟩ "s1") "s1" 0
      { id := "s1", status := .initializing } 1000 (some "123") (some "Ann")
      (by decide) (by decide)).2.2.1⟩

/-! ## `waitForConnected` (session-manager.ts lines 113-147, C6)

The promise body registers a `setTimeout` and two listeners
(`session.connected` → `onConnected`, `session.status` → `onStatus`);
each exit path runs `clearTimeout`/`cleanup` before settling.  The model
tracks the listener registrations and the timer as explicit flags and
feeds the call a chronological stream of emitted events; the timeout
timer fires between the events before and after `timeoutMs`. -/

namespace WFC

inductive WOutcome
  | resolvedNow
  | resolvedAt (t : Nat)
  | timedOut (t : Nat)
  | loggedOutAt (t : Nat)
deriving DecidableEq

inductive WEvent
  | connectedEv (id : String)
  | statusEv (id : String) (s : SM.SessionStatus)
deriving DecidableEq

/-- The wait's runtime state: which listeners are still registered on the
emitter, whether the timer is still armed, and the promise's settlement. -/
structure WaitSt where
  onConnectedActive : Bool
  onStatusActive : Bool
  timerActive : Bool
  settled : Option WOutcome
deriving DecidableEq

/-- Exit path: `clearTimeout(timer)` (or the timer has fired), `cleanup()`
removing both listeners, then settle the promise (a promise settles only
once). -/
def settle (st : WaitSt) (o : WOutcome) : WaitSt :=
  { onConnectedActive := false
    onStatusActive := false
    timerActive := false
    settled := if st.settled.isSome then st.settled else some o }

/-- One emitted event hits whichever of the two listeners is still
registered: `onConnected` (lines 128-133) and `onStatus` (lines 135-142). -/
def deliver (target : String) (st : WaitSt) : Nat × WEvent → WaitSt
  | (t, .connectedEv cid) =>
    if st.onConnectedActive then
      if cid = target then settle st (.resolvedAt t) else st
    else st
  | (t, .statusEv cid s) =>
    if st.onStatusActive then
      if cid = target ∧ s = .logged_out then settle st (.loggedOutAt t) else st
    else st

/-- The `setTimeout` callback (lines 123-126): if still armed, clean up
and reject with the timeout error. -/
def fireTimeout (st : WaitSt) (t : Nat) : WaitSt :=
  if st.timerActive then settle st (.timedOut t) else st

/-- `waitForConnected(id, timeoutMs)`: the only synchronous check is
`info?.status === 'connected'` (line 115) — an already-logged-out session
is NOT examined and falls through to the waiting path. -/
def waitForConnected (initial : Option SM.SessionStatus) (target : String)
    (timeoutMs : Nat) (events : List (Nat × WEvent)) : WaitSt :=
  if initial = some SM.SessionStatus.connected then
    ⟨false, false, false, some .resolvedNow⟩
  else
    let st0 : WaitSt := ⟨true, true, true, none⟩
    let st1 := (events.filter (fun e => e.1 < timeoutMs)).foldl (deliver target) st0
    let st2 := fireTimeout st1 timeoutMs
    (events.filter (fun e => ¬ e.1 < timeoutMs)).foldl (deliver target) st2

/-- First relevant occurrence in the pre-timeout events: the outcome the
wait settles with. -/
def firstRelevant (target : String) (timeoutMs : Nat) :
    List (Nat × WEvent) → WOutcome
  | [] => .timedOut timeoutMs
  | (t, .connectedEv cid) :: rest =>
    if cid = target then .resolvedAt t else firstRelevant target timeoutMs rest
  | (t, .statusEv cid s) :: rest =>
    if cid = target ∧ s = .logged_out then .loggedOutAt t
    else firstRelevant target timeoutMs rest

def expectedOutcome (initial : Option SM.SessionStatus) (target : String)
    (timeoutMs : Nat) (events : List (Nat × WEvent)) : WOutcome :=
  if initial = some SM.SessionStatus.connected then .resolvedNow
  else firstRelevant target timeoutMs (events.filter (fun e => e.1 < timeoutMs))

theorem foldl_deliver_inactive (target : String) (evs : List (Nat × WEvent))
    (st : WaitSt) (h1 : st.onConnectedActive = false) (h2 : st.onStatusActive = false) :
    evs.foldl (deliver target) st = st := by
  induction evs with
  | nil => rfl
  | cons e rest ih =>
    obtain ⟨t, ev⟩ := e
    cases ev <;> simp [List.foldl_cons, deliver, h1, h2, ih]

theorem fold_active (target : String) (timeoutMs : Nat) (evs : List (Nat × WEvent)) :
    fireTimeout (evs.foldl (deliver target) ⟨true, true, true, none⟩) timeoutMs
      = ⟨false, false, false, some (firstRelevant target timeoutMs evs)⟩ := by
  induction evs with
  | nil => simp [fireTimeout, settle, firstRelevant]
  | cons e rest ih =>
    obtain ⟨t, ev⟩ := e
    cases ev with
    | connectedEv cid =>
      by_cases hc : cid = target
      · have h1 : deliver target ⟨true, true, true, none⟩ (t, .connectedEv cid)
            = ⟨false, false, false, some (.resolvedAt t)⟩ := by
          simp [deliver, hc, settle]
        rw [List.foldl_cons, h1, foldl_deliver_inactive target rest _ rfl rfl]
        simp [fireTimeout, firstRelevant, hc]
      · simpa [List.foldl_cons, deliver, hc, firstRelevant] using ih
    | statusEv cid s =>
      by_cases hc : cid = target ∧ s = SM.SessionStatus.logged_out
      · have h1 : deliver target ⟨true, true, true, none⟩ (t, .statusEv cid s)
            = ⟨false, false, false, some (.loggedOutAt t)⟩ := by
          simp [deliver, hc, settle]
        rw [List.foldl_cons, h1, foldl_deliver_inactive target rest _ rfl rfl]
        simp [fireTimeout, firstRelevant, hc.1, hc.2]
      · simpa [List.foldl_cons, deliver, hc, firstRelevant] using ih

end WFC

/-- C6 counterexample: the claim says a session already in `logged_out`
at call time makes `waitForConnected` reject with `LoggedOut`.  The code
only checks `status === 'connected'` up front (line 115) and otherwise
waits for future events; a logged-out session emits nothing further, so
the call rejects with the Timeout error after `timeoutMs` instead. -/
theorem C6_counterexample_already_logged_out_times_out :
    (WFC.waitForConnected (some .logged_out) "s1" 5000 []).settled
      = some (.timedOut 5000) := by
  decide

/-- C6 amended: `waitForConnected` resolves at the first
`session.connected` event for the id before the timeout, rejects
`LoggedOut` at the first `logged_out` status event for the id before the
timeout, and otherwise rejects with `Timeout` at `timeoutMs`; a session
already `logged_out` at call time is not special-cased (it follows the
timeout path).  On every path — immediate resolve, success, logout,
timeout — both listeners and the timer end up released. -/
theorem C6_amended_wait_outcome_and_cleanup :
    ∀ (initial : Option SM.SessionStatus) (target : String) (timeoutMs : Nat)
      (events : List (Nat × WFC.WEvent)),
      (WFC.waitForConnected initial target timeoutMs events).settled
        = some (WFC.expectedOutcome initial target timeoutMs events)
      ∧ (WFC.waitForConnected initial target timeoutMs events).onConnectedActive = false
      ∧ (WFC.waitForConnected initial target timeoutMs events).onStatusActive = false
      ∧ (WFC.waitForConnected initial target timeoutMs events).timerActive = false := by
  intro initial target timeoutMs events
  by_cases hinit : initial = some SM.SessionStatus.connected
  · simp [WFC.waitForConnected, WFC.expectedOutcome, hinit]
  · simp only [WFC.waitForConnected, WFC.expectedOutcome, if_neg hinit]
    rw [WFC.fold_active target timeoutMs]
    rw [WFC.foldl_deliver_inactive target _ _ rfl rfl]
    exact ⟨rfl, rfl, rfl, rfl⟩

/-! ## Rate-limited queue (src/Utils/rate-limiter.ts, C3 / C7 / C9 / C10)

`_process` is a single drain loop: at most one task in flight, every
`await _sleep(...)` advances a simulated clock.  The minute counter is
reset by an interval aligned to wall-clock minute boundaries
(`_startMinuteReset`, lines 164-172) and the day counter at local
midnight (`_startDayReset`, lines 174-184); when a sleep crosses such a
boundary, the reset timer fires during the await (a timer registered
earlier fires first among timers due at the same instant), so `advance`
folds the resets into the clock movement.  Times are the simulated
local-clock milliseconds, with minute boundaries at multiples of 60000
and midnight at multiples of 86400000. -/

namespace RLQ

structure RLConfig where
  messagesPerMinute : Nat
  messagesPerDay : Nat
  perRecipientDelayMs : Nat
deriving DecidableEq

/-- A queued task (`QueuedTask`, rate-limiter.ts lines 14-20): `tid`
identifies the caller's promise handle, `succeeds` is the outcome of the
(instantly settling) `fn`. -/
structure RTask where
  tid : Nat
  jid : String
  succeeds : Bool
deriving DecidableEq

inductive ROutcome
  | resolved
  | rejected
  | cancelled
deriving DecidableEq

/-- One dispatch record: the instant `task.fn()` was invoked, for which
recipient, and whether the operation succeeded. -/
structure Disp where
  time : Nat
  jid : String
  success : Bool
deriving DecidableEq

structure QState where
  time : Nat
  rngIx : Nat
  queue : List RTask
  sentThisMinute : Nat
  sentToday : Nat
  lastSentAt : List (String × Nat)
  results : List (Nat × ROutcome)
  dispatches : List Disp
deriving DecidableEq

/-- `await _sleep(d)` / `_waitUntilMidnight()`: the clock advances by `d`;
if a minute boundary lies in the crossed interval the minute-reset
interval fired during the await (sentThisMinute = 0), likewise the day
reset at midnight. -/
def advance (st : QState) (d : Nat) : QState :=
  let t2 := st.time + d
  { st with
    time := t2
    sentThisMinute := if st.time / 60000 < t2 / 60000 then 0 else st.sentThisMinute
    sentToday := if st.time / 86400000 < t2 / 86400000 then 0 else st.sentToday }

/-- `_randomDelay()` (lines 143-147): `Math.max(100, Math.round(base +
jitter))` with `base = minDelayMs + Math.random() * (maxDelayMs -
minDelayMs)` and `jitter = (Math.random() - 0.5) * jitterMs`.  The two
uniform samples are external nondeterminism; the model takes the rounded
sum `Math.round(base + jitter)` as a per-dispatch input stream (for the
zero-pacing configuration `minDelayMs = maxDelayMs = jitterMs = 0` the
rounded sum is 0 whatever the samples). -/
def randomDelay (r : Int) : Nat := (max 100 r).toNat

theorem randomDelay_ge (r : Int) : 100 ≤ randomDelay r := by
  have h := le_max_left (100 : Int) r
  simp only [randomDelay]
  omega

/-- The per-recipient spacing check (lines 115-122): if the recipient's
last dispatch is more recent than `perRecipientDelayMs`, sleep the
remaining delta (`if (lastSent)` — JS truthiness, so a stored 0 is
skipped). -/
def spacingWait (cfg : RLConfig) (task : RTask) (st : QState) : QState :=
  match alookup st.lastSentAt task.jid with
  | some lastSent =>
    if lastSent ≠ 0 ∧ st.time - lastSent < cfg.perRecipientDelayMs then
      advance st (cfg.perRecipientDelayMs - (st.time - lastSent))
    else st
  | none => st

/-- The tail of one dispatch iteration, after `queue.shift()` (lines
113-137): per-recipient spacing sleep, randomized pacing sleep, then the
task's `fn()` — on success record the recipient's dispatch time and bump
both counters, on failure only reject; the queue field of `st` already
holds the remaining tasks. -/
def dispatchTask (cfg : RLConfig) (rand : Nat → Int) (task : RTask) (st : QState) :
    QState :=
  let st1 := spacingWait cfg task st
  let d := randomDelay (rand st1.rngIx)
  let st2 := advance { st1 with rngIx := st1.rngIx + 1 } d
  if task.succeeds then
    { st2 with
      lastSentAt := aset st2.lastSentAt task.jid st2.time
      sentThisMinute := st2.sentThisMinute + 1
      sentToday := st2.sentToday + 1
      results := st2.results ++ [(task.tid, .resolved)]
      dispatches := st2.dispatches ++ [⟨st2.time, task.jid, true⟩] }
  else
    { st2 with
      results := st2.results ++ [(task.tid, .rejected)]
      dispatches := st2.dispatches ++ [⟨st2.time, task.jid, false⟩] }

/-- One iteration of the `while (queue.length > 0)` drain loop (lines
98-138): daily-budget check (sleep to midnight, `continue`), minute
budget check (sleep `_nextMinuteMs()`, `continue`), else shift the head
task and dispatch it.  On an empty queue the loop exits (identity). -/
def processStep (cfg : RLConfig) (rand : Nat → Int) (st : QState) : QState :=
  match st.queue with
  | [] => st
  | task :: rest =>
    if cfg.messagesPerDay ≤ st.sentToday then
      advance st (86400000 - st.time % 86400000)
    else if cfg.messagesPerMinute ≤ st.sentThisMinute then
      advance st (60000 - st.time % 60000)
    else
      dispatchTask cfg rand task { st with queue := rest }

def runQ (cfg : RLConfig) (rand : Nat → Int) : Nat → QState → QState
  | 0, st => st
  | fuel + 1, st => runQ cfg rand fuel (processStep cfg rand st)

/-- The queue right after construction with the given tasks enqueued and
`_process` about to start at clock `t0`. -/
def initQ (tasks : List RTask) (t0 : Nat) : QState :=
  ⟨t0, 0, tasks, 0, 0, [], [], []⟩

/-- `clear()` (lines 80-86): reject every queued task with the
`Queue cleared` error, in order, then drop them all. -/
def clear (st : QState) : QState :=
  { st with
    queue := []
    results := st.results ++ st.queue.map (fun t => (t.tid, ROutcome.cancelled)) }

/-- Successful dispatches falling in wall-clock minute bucket
`[m * 60000, (m+1) * 60000)`. -/
def minuteSuccessCount (l : List Disp) (m : Nat) : Nat :=
  (l.filter (fun d => d.success = true ∧ d.time / 60000 = m)).length

/-- The drain-loop invariant behind the minute budget: dispatch records
never postdate the clock, `sentThisMinute` counts exactly the successful
dispatches of the current minute bucket, and no bucket ever exceeds
`messagesPerMinute` successes. -/
def InvC3 (cfg : RLConfig) (st : QState) : Prop :=
  (∀ d ∈ st.dispatches, d.time ≤ st.time)
  ∧ st.sentThisMinute = minuteSuccessCount st.dispatches (st.time / 60000)
  ∧ ∀ m, minuteSuccessCount st.dispatches m ≤ cfg.messagesPerMinute

theorem InvC3_advance (cfg : RLConfig) (st : QState) (d : Nat) (h : InvC3 cfg st) :
    InvC3 cfg (advance st d) := by
  obtain ⟨h1, h2, h3⟩ := h
  refine ⟨?_, ?_, fun m => h3 m⟩
  · intro x hx
    exact le_trans (h1 x hx) (Nat.le_add_right _ _)
  · by_cases hb : st.time / 60000 < (st.time + d) / 60000
    · simp only [advance, if_pos hb]
      symm
      simp only [minuteSuccessCount, List.length_eq_zero]
      rw [List.filter_eq_nil_iff]
      intro x hx
      have hxb : x.time / 60000 ≤ st.time / 60000 :=
        Nat.div_le_div_right (h1 x hx)
      simp only [decide_eq_true_eq, not_and]
      intro _
      omega
    · have heq : (st.time + d) / 60000 = st.time / 60000 := by
        have := Nat.div_le_div_right (c := 60000) (Nat.le_add_right st.time d)
        omega
      simp only [advance, if_neg hb]
      rw [heq]
      exact h2

theorem advance_sentThisMinute_lt (st : QState) (d n : Nat)
    (h : st.sentThisMinute < n) : (advance st d).sentThisMinute < n := by
  simp only [advance]
  split <;> omega

theorem InvC3_spacingWait (cfg : RLConfig) (task : RTask) (st : QState)
    (h : InvC3 cfg st) : InvC3 cfg (spacingWait cfg task st) := by
  unfold spacingWait
  cases alookup st.lastSentAt task.jid with
  | none => exact h
  | some lastSent =>
    dsimp only
    by_cases hc : lastSent ≠ 0 ∧ st.time - lastSent < cfg.perRecipientDelayMs
    · rw [if_pos hc]
      exact InvC3_advance cfg st _ h
    · rw [if_neg hc]
      exact h

theorem spacingWait_sentThisMinute_lt (cfg : RLConfig) (task : RTask) (st : QState)
    (n : Nat) (h : st.sentThisMinute < n) :
    (spacingWait cfg task st).sentThisMinute < n := by
  unfold spacingWait
  cases alookup st.lastSentAt task.jid with
  | none => exact h
  | some lastSent =>
    dsimp only
    by_cases hc : lastSent ≠ 0 ∧ st.time - lastSent < cfg.perRecipientDelayMs
    · rw [if_pos hc]
      exact advance_sentThisMinute_lt st _ _ h
    · rw [if_neg hc]
      exact h

theorem InvC3_dispatchTask (cfg : RLConfig) (rand : Nat → Int) (task : RTask)
    (st : QState) (hlt : st.sentThisMinute < cfg.messagesPerMinute)
    (h : InvC3 cfg st) : InvC3 cfg (dispatchTask cfg rand task st) := by
  unfold dispatchTask
  have hjoin :
      ∀ s2 : QState, InvC3 cfg s2 → s2.sentThisMinute < cfg.messagesPerMinute →
        InvC3 cfg
          (if task.succeeds then
            { s2 with
              lastSentAt := aset s2.lastSentAt task.jid s2.time
              sentThisMinute := s2.sentThisMinute + 1
              sentToday := s2.sentToday + 1
              results := s2.results ++ [(task.tid, .resolved)]
              dispatches := s2.dispatches ++ [⟨s2.time, task.jid, true⟩] }
          else
            { s2 with
              results := s2.results ++ [(task.tid, .rejected)]
              dispatches := s2.dispatches ++ [⟨s2.time, task.jid, false⟩] }) := by
    intro s2 hs2 hs2lt
    obtain ⟨g1, g2, g3⟩ := hs2
    split
    · refine ⟨?_, ?_, ?_⟩
      · intro x hx
        simp only [List.mem_append, List.mem_singleton] at hx
        rcases hx with hx | hx
        · exact g1 x hx
        · subst hx
          exact le_refl _
      · simp only [minuteSuccessCount, List.filter_append]
        rw [List.length_append]
        have : (List.filter (fun d => decide (d.success = true ∧ d.time / 60000 = s2.time / 60000))
            [(⟨s2.time, task.jid, true⟩ : Disp)]).length = 1 := by
          simp
        rw [this, ← minuteSuccessCount, g2]
      · intro m
        simp only [minuteSuccessCount, List.filter_append, List.length_append]
        by_cases hm : s2.time / 60000 = m
        · have : (List.filter (fun d => decide (d.success = true ∧ d.time / 60000 = m))
              [(⟨s2.time, task.jid, true⟩ : Disp)]).length = 1 := by
            simp [hm]
          rw [this]
          have hcur := g2
          rw [hm] at hcur
          simp only [minuteSuccessCount] at hcur
          omega
        · have : (List.filter (fun d => decide (d.success = true ∧ d.time / 60000 = m))
              [(⟨s2.time, task.jid, true⟩ : Disp)]).length = 0 := by
            simp [hm]
          rw [this]
          have := g3 m
          simp only [minuteSuccessCount] at this
          omega
    · refine ⟨?_, ?_, ?_⟩
      · intro x hx
        simp only [List.mem_append, List.mem_singleton] at hx
        rcases hx with hx | hx
        · exact g1 x hx
        · subst hx
          exact le_refl _
      · simp only [minuteSuccessCount, List.filter_append, List.length_append]
        have : (List.filter (fun d => decide (d.success = true ∧ d.time / 60000 = s2.time / 60000))
            [(⟨s2.time, task.jid, false⟩ : Disp)]).length = 0 := by
          simp
        rw [this]
        simp only [minuteSuccessCount] at g2
        omega
      · intro m
        simp only [minuteSuccessCount, List.filter_append, List.length_append]
        have : (List.filter (fun d => decide (d.success = true ∧ d.time / 60000 = m))
            [(⟨s2.time, task.jid, false⟩ : Disp)]).length = 0 := by
          simp
        rw [this]
        have := g3 m
        simp only [minuteSuccessCount] at this
        omega
  have h1 : InvC3 cfg (spacingWait cfg task st) := InvC3_spacingWait cfg task st h
  have h1lt : (spacingWait cfg task st).sentThisMinute < cfg.messagesPerMinute :=
    spacingWait_sentThisMinute_lt cfg task st _ hlt
  have h2 : InvC3 cfg
      (advance { spacingWait cfg task st with rngIx := (spacingWait cfg task st).rngIx + 1 }
        (randomDelay (rand (spacingWait cfg task st).rngIx))) :=
    InvC3_advance cfg _ _ h1
  have h2lt :
      (advance { spacingWait cfg task st with rngIx := (spacingWait cfg task st).rngIx + 1 }
        (randomDelay (rand (spacingWait cfg task st).rngIx))).sentThisMinute
        < cfg.messagesPerMinute :=
    advance_sentThisMinute_lt _ _ _ h1lt
  exact hjoin _ h2 h2lt

theorem InvC3_processStep (cfg : RLConfig) (rand : Nat → Int) (st : QState)
    (h : InvC3 cfg st) : InvC3 cfg (processStep cfg rand st) := by
  unfold processStep
  cases hq : st.queue with
  | nil => exact h
  | cons task rest =>
    by_cases hd : cfg.messagesPerDay ≤ st.sentToday
    · simpa [hd] using InvC3_advance cfg st _ h
    · by_cases hm : cfg.messagesPerMinute ≤ st.sentThisMinute
      · simpa [hd, hm] using InvC3_advance cfg st _ h
      · simp only [if_neg hd, if_neg hm]
        exact InvC3_dispatchTask cfg rand task { st with queue := rest }
          (by simpa using Nat.lt_of_not_le hm) h

theorem InvC3_runQ (cfg : RLConfig) (rand : Nat → Int) (fuel : Nat) (st : QState)
    (h : InvC3 cfg st) : InvC3 cfg (runQ cfg rand fuel st) := by
  induction fuel generalizing st with
  | zero => exact h
  | succ n ih => exact ih _ (InvC3_processStep cfg rand st h)

/-! Frame facts about the two sleeps and the dispatch tail, used by the
clear / spacing / failure claims. -/

theorem advance_sentThisMinute_le (st : QState) (d : Nat) :
    (advance st d).sentThisMinute ≤ st.sentThisMinute := by
  simp only [advance]
  split <;> omega

theorem advance_sentToday_le (st : QState) (d : Nat) :
    (advance st d).sentToday ≤ st.sentToday := by
  simp only [advance]
  split <;> omega

theorem spacingWait_frame (cfg : RLConfig) (task : RTask) (st : QState) :
    (spacingWait cfg task st).queue = st.queue
    ∧ (spacingWait cfg task st).results = st.results
    ∧ (spacingWait cfg task st).dispatches = st.dispatches
    ∧ (spacingWait cfg task st).lastSentAt = st.lastSentAt
    ∧ (spacingWait cfg task st).rngIx = st.rngIx
    ∧ st.time ≤ (spacingWait cfg task st).time
    ∧ (spacingWait cfg task st).sentThisMinute ≤ st.sentThisMinute
    ∧ (spacingWait cfg task st).sentToday ≤ st.sentToday := by
  unfold spacingWait
  cases alookup st.lastSentAt task.jid with
  | none =>
    exact ⟨rfl, rfl, rfl, rfl, rfl, le_refl _, le_refl _, le_refl _⟩
  | some lastSent =>
    dsimp only
    by_cases hc : lastSent ≠ 0 ∧ st.time - lastSent < cfg.perRecipientDelayMs
    · rw [if_pos hc]
      exact ⟨rfl, rfl, rfl, rfl, rfl, Nat.le_add_right _ _,
        advance_sentThisMinute_le st _, advance_sentToday_le st _⟩
    · rw [if_neg hc]
      exact ⟨rfl, rfl, rfl, rfl, rfl, le_refl _, le_refl _, le_refl _⟩

/-- The head-of-line guarantee of the spacing sleep: when the recipient's
recorded last dispatch `s` is nonzero and in the past, the loop does not
proceed before `s + perRecipientDelayMs`. -/
theorem spacingWait_time_bound (cfg : RLConfig) (task : RTask) (st : QState)
    (s : Nat) (hs : alookup st.lastSentAt task.jid = some s) (h0 : 0 < s)
    (hle : s ≤ st.time) :
    s + cfg.perRecipientDelayMs ≤ (spacingWait cfg task st).time := by
  unfold spacingWait
  rw [hs]
  dsimp only
  by_cases hc : s ≠ 0 ∧ st.time - s < cfg.perRecipientDelayMs
  · rw [if_pos hc]
    show s + cfg.perRecipientDelayMs ≤ st.time + (cfg.perRecipientDelayMs - (st.time - s))
    omega
  · rw [if_neg hc]
    have h2 : ¬ st.time - s < cfg.perRecipientDelayMs := by
      intro hlt2
      exact hc ⟨by omega, hlt2⟩
    show s + cfg.perRecipientDelayMs ≤ st.time
    omega

theorem dispatchTask_time (cfg : RLConfig) (rand : Nat → Int) (task : RTask)
    (st : QState) :
    (dispatchTask cfg rand task st).time
      = (spacingWait cfg task st).time + randomDelay (rand (spacingWait cfg task st).rngIx) := by
  simp only [dispatchTask]
  split <;> rfl

theorem dispatchTask_queue (cfg : RLConfig) (rand : Nat → Int) (task : RTask)
    (st : QState) : (dispatchTask cfg rand task st).queue = st.queue := by
  simp only [dispatchTask]
  split <;> exact (spacingWait_frame cfg task st).1

theorem dispatchTask_results (cfg : RLConfig) (rand : Nat → Int) (task : RTask)
    (st : QState) :
    (dispatchTask cfg rand task st).results
      = st.results
        ++ [(task.tid, if task.succeeds then ROutcome.resolved else ROutcome.rejected)] := by
  have hf := (spacingWait_frame cfg task st).2.1
  simp only [dispatchTask]
  split
  next h =>
    show (spacingWait cfg task st).results ++ [(task.tid, ROutcome.resolved)] = _
    simp [hf, h]
  next h =>
    show (spacingWait cfg task st).results ++ [(task.tid, ROutcome.rejected)] = _
    simp [hf, h]

theorem dispatchTask_dispatches (cfg : RLConfig) (rand : Nat → Int) (task : RTask)
    (st : QState) :
    (dispatchTask cfg rand task st).dispatches
      = st.dispatches
        ++ [⟨(spacingWait cfg task st).time + randomDelay (rand (spacingWait cfg task st).rngIx),
             task.jid, task.succeeds⟩] := by
  have hf := (spacingWait_frame cfg task st).2.2.1
  simp only [dispatchTask]
  split
  next h =>
    show (spacingWait cfg task st).dispatches
        ++ [⟨(spacingWait cfg task st).time + randomDelay (rand (spacingWait cfg task st).rngIx),
             task.jid, true⟩] = _
    simp [hf, h]
  next h =>
    show (spacingWait cfg task st).dispatches
        ++ [⟨(spacingWait cfg task st).time + randomDelay (rand (spacingWait cfg task st).rngIx),
             task.jid, false⟩] = _
    simp [hf, eq_false_of_ne_true h]

theorem dispatchTask_lastSentAt (cfg : RLConfig) (rand : Nat → Int) (task : RTask)
    (st : QState) :
    (dispatchTask cfg rand task st).lastSentAt
      = if task.succeeds then
          aset st.lastSentAt task.jid
            ((spacingWait cfg task st).time + randomDelay (rand (spacingWait cfg task st).rngIx))
        else st.lastSentAt := by
  have hf := (spacingWait_frame cfg task st).2.2.2.1
  simp only [dispatchTask]
  split
  next h =>
    show aset (spacingWait cfg task st).lastSentAt task.jid
        ((spacingWait cfg task st).time + randomDelay (rand (spacingWait cfg task st).rngIx)) = _
    simp [hf, h]
  next h =>
    show (spacingWait cfg task st).lastSentAt = _
    simp [hf, h]

theorem dispatchTask_sent_le_of_failure (cfg : RLConfig) (rand : Nat → Int)
    (task : RTask) (st : QState) (h : task.succeeds = false) :
    (dispatchTask cfg rand task st).sentThisMinute ≤ st.sentThisMinute
    ∧ (dispatchTask cfg rand task st).sentToday ≤ st.sentToday := by
  obtain ⟨-, -, -, -, -, -, hm, hd⟩ := spacingWait_frame cfg task st
  simp only [dispatchTask]
  rw [if_neg (by simp [h])]
  constructor
  · have h1 : (advance { spacingWait cfg task st with
        rngIx := (spacingWait cfg task st).rngIx + 1 }
        (randomDelay (rand (spacingWait cfg task st).rngIx))).sentThisMinute
        ≤ (spacingWait cfg task st).sentThisMinute :=
      advance_sentThisMinute_le _ _
    exact le_trans h1 hm
  · have h1 : (advance { spacingWait cfg task st with
        rngIx := (spacingWait cfg task st).rngIx + 1 }
        (randomDelay (rand (spacingWait cfg task st).rngIx))).sentToday
        ≤ (spacingWait cfg task st).sentToday :=
      advance_sentToday_le _ _
    exact le_trans h1 hd

theorem getLast?_mem_list {α : Type} (l : List α) (a : α) (h : l.getLast? = some a) :
    a ∈ l := by
  obtain ⟨hne, rfl⟩ := List.mem_getLast?_eq_getLast (l := l) (x := a) (by simpa using h)
  exact List.getLast_mem hne

/-- Adjacent dispatches for one recipient are spaced: whenever the
earlier one succeeded, the later one comes at least
`perRecipientDelayMs` afterwards. -/
def spacedRel (req : Nat) : Disp → Disp → Prop :=
  fun a b => a.success = true → a.time + req ≤ b.time

/-- The drain-loop invariant behind the per-recipient spacing: dispatch
times are positive and never postdate the clock, `lastSentAt` records the
time of a recipient's most recent dispatch whenever that dispatch
succeeded, and each recipient's dispatch sequence is spaced. -/
def InvC9 (cfg : RLConfig) (st : QState) : Prop :=
  (∀ d ∈ st.dispatches, 0 < d.time ∧ d.time ≤ st.time)
  ∧ (∀ (jid : String) (d1 : Disp),
      (st.dispatches.filter (fun d => d.jid = jid)).getLast? = some d1 →
      d1.success = true → alookup st.lastSentAt jid = some d1.time)
  ∧ (∀ jid : String,
      List.Chain' (spacedRel cfg.perRecipientDelayMs)
        (st.dispatches.filter (fun d => d.jid = jid)))

theorem InvC9_advance (cfg : RLConfig) (st : QState) (dd : Nat) (h : InvC9 cfg st) :
    InvC9 cfg (advance st dd) := by
  obtain ⟨h1, h2, h3⟩ := h
  refine ⟨?_, h2, h3⟩
  intro x hx
  obtain ⟨hp, hle⟩ := h1 x hx
  exact ⟨hp, le_trans hle (Nat.le_add_right _ _)⟩

theorem InvC9_spacingWait (cfg : RLConfig) (task : RTask) (st : QState)
    (h : InvC9 cfg st) : InvC9 cfg (spacingWait cfg task st) := by
  unfold spacingWait
  cases alookup st.lastSentAt task.jid with
  | none => exact h
  | some lastSent =>
    dsimp only
    by_cases hc : lastSent ≠ 0 ∧ st.time - lastSent < cfg.perRecipientDelayMs
    · rw [if_pos hc]
      exact InvC9_advance cfg st _ h
    · rw [if_neg hc]
      exact h

theorem InvC9_dispatchTask (cfg : RLConfig) (rand : Nat → Int) (task : RTask)
    (st : QState) (h : InvC9 cfg st) : InvC9 cfg (dispatchTask cfg rand task st) := by
  obtain ⟨h1, h2, h3⟩ := h
  have hdisp := dispatchTask_dispatches cfg rand task st
  have htime := dispatchTask_time cfg rand task st
  have hlast := dispatchTask_lastSentAt cfg rand task st
  have hframe := spacingWait_frame cfg task st
  have hrd := randomDelay_ge (rand (spacingWait cfg task st).rngIx)
  set T := (spacingWait cfg task st).time + randomDelay (rand (spacingWait cfg task st).rngIx)
    with hT
  have hTbig : st.time + 100 ≤ T := by
    have := hframe.2.2.2.2.2.1
    omega
  have hkey : ∀ d1 : Disp,
      (st.dispatches.filter (fun d => d.jid = task.jid)).getLast? = some d1 →
      d1.success = true → d1.time + cfg.perRecipientDelayMs ≤ T := by
    intro d1 hl1 hsucc
    have hmem : d1 ∈ st.dispatches :=
      List.mem_of_mem_filter (getLast?_mem_list _ _ hl1)
    obtain ⟨hp, hle⟩ := h1 d1 hmem
    have hs := h2 task.jid d1 hl1 hsucc
    have hb := spacingWait_time_bound cfg task st d1.time hs hp hle
    omega
  refine ⟨?_, ?_, ?_⟩
  · intro x hx
    rw [hdisp] at hx
    rcases List.mem_append.mp hx with hx | hx
    · obtain ⟨hp, hle⟩ := h1 x hx
      refine ⟨hp, ?_⟩
      rw [htime]
      omega
    · have hx2 : x = ⟨T, task.jid, task.succeeds⟩ := by simpa using hx
      subst hx2
      refine ⟨?_, ?_⟩
      · show 0 < T
        omega
      · rw [htime]
  · intro jid d1 hl1 hsucc
    rw [hdisp, List.filter_append] at hl1
    by_cases hj : task.jid = jid
    · subst hj
      have hfnew : List.filter (fun d => d.jid = task.jid)
          [(⟨T, task.jid, task.succeeds⟩ : Disp)] = [⟨T, task.jid, task.succeeds⟩] := by
        simp
      rw [hfnew, List.getLast?_concat] at hl1
      have hd1 : d1 = ⟨T, task.jid, task.succeeds⟩ := by
        simpa using hl1.symm
      subst hd1
      have hsu : task.succeeds = true := hsucc
      rw [hlast, if_pos hsu]
      exact (alookup_aset_self st.lastSentAt task.jid T).symm ▸ rfl
    · have hfnew : List.filter (fun d => d.jid = jid)
          [(⟨T, task.jid, task.succeeds⟩ : Disp)] = [] := by
        simp [hj]
      rw [hfnew, List.append_nil] at hl1
      have hold := h2 jid d1 hl1 hsucc
      rw [hlast]
      by_cases hsu : task.succeeds = true
      · rw [if_pos hsu]
        rw [alookup_aset_ne st.lastSentAt task.jid jid T (fun hh => hj hh.symm)]
        exact hold
      · rw [if_neg hsu]
        exact hold
  · intro jid
    rw [hdisp, List.filter_append]
    by_cases hj : task.jid = jid
    · subst hj
      have hfnew : List.filter (fun d => d.jid = task.jid)
          [(⟨T, task.jid, task.succeeds⟩ : Disp)] = [⟨T, task.jid, task.succeeds⟩] := by
        simp
      rw [hfnew, List.chain'_append]
      refine ⟨h3 task.jid, List.chain'_singleton _, ?_⟩
      intro x hx y hy
      have hy2 : (⟨T, task.jid, task.succeeds⟩ : Disp) = y := by simpa using hy
      subst hy2
      intro hxs
      have hlx : (st.dispatches.filter (fun d => d.jid = task.jid)).getLast? = some x := by
        simpa using hx
      exact hkey x hlx hxs
    · have hfnew : List.filter (fun d => d.jid = jid)
          [(⟨T, task.jid, task.succeeds⟩ : Disp)] = [] := by
        simp [hj]
      rw [hfnew, List.append_nil]
      exact h3 jid

theorem InvC9_processStep (cfg : RLConfig) (rand : Nat → Int) (st : QState)
    (h : InvC9 cfg st) : InvC9 cfg (processStep cfg rand st) := by
  unfold processStep
  cases hq : st.queue with
  | nil => exact h
  | cons task rest =>
    by_cases hd : cfg.messagesPerDay ≤ st.sentToday
    · simpa [hd] using InvC9_advance cfg st _ h
    · by_cases hm : cfg.messagesPerMinute ≤ st.sentThisMinute
      · simpa [hd, hm] using InvC9_advance cfg st _ h
      · simp only [if_neg hd, if_neg hm]
        exact InvC9_dispatchTask cfg rand task { st with queue := rest } h

theorem InvC9_runQ (cfg : RLConfig) (rand : Nat → Int) (fuel : Nat) (st : QState)
    (h : InvC9 cfg st) : InvC9 cfg (runQ cfg rand fuel st) := by
  induction fuel generalizing st with
  | zero => exact h
  | succ n ih => exact ih _ (InvC9_processStep cfg rand st h)

end RLQ

/-- C3 counterexample: the claim demands at most 2 dispatches in ANY
rolling 60-second window.  The code enforces a wall-clock bucket: the
minute counter resets at each multiple of 60000 ms
(`_startMinuteReset`).  Starting the queue at 59600 ms (400 ms before a
boundary) with `messagesPerMinute = 2`, zero pacing configuration
(`minDelayMs = maxDelayMs = jitterMs = 0`, making every `_randomDelay()`
sample round to 0 and clamp to 100 ms) and 5 instantly-succeeding tasks
for distinct recipients, the dispatches land at 59700, 59800, 60100,
60200, 120100 — four of them inside the single rolling window starting
at 59700. -/
theorem C3_counterexample_rolling_window :
    ((RLQ.runQ ⟨2, 500, 2000⟩ (fun _ => 0) 12
        (RLQ.initQ [⟨1, "a", true⟩, ⟨2, "b", true⟩, ⟨3, "c", true⟩, ⟨4, "d", true⟩,
          ⟨5, "e", true⟩] 59600)).dispatches.map (fun d => d.time))
      = [59700, 59800, 60100, 60200, 120100]
    ∧ (((RLQ.runQ ⟨2, 500, 2000⟩ (fun _ => 0) 12
        (RLQ.initQ [⟨1, "a", true⟩, ⟨2, "b", true⟩, ⟨3, "c", true⟩, ⟨4, "d", true⟩,
          ⟨5, "e", true⟩] 59600)).dispatches.map (fun d => d.time)).filter
        (fun t => 59700 ≤ t ∧ t < 59700 + 60000)).length = 4 := by
  exact ⟨by decide, by decide⟩

/-- C3 amended: the guarantee the code actually provides is per
wall-clock minute bucket — for every configuration, random stream, task
list, start time and fuel, every bucket `[m * 60000, (m+1) * 60000)`
receives at most `messagesPerMinute` successful dispatches (with
`messagesPerMinute = 2` and 5 instantly-resolving tasks this gives at
most 2 per bucket, but not per rolling window). -/
theorem C3_amended_wall_clock_minute_budget :
    ∀ (cfg : RLQ.RLConfig) (rand : Nat → Int) (fuel : Nat) (tasks : List RLQ.RTask)
      (t0 m : Nat),
      RLQ.minuteSuccessCount ((RLQ.runQ cfg rand fuel (RLQ.initQ tasks t0)).dispatches) m
        ≤ cfg.messagesPerMinute := by
  intro cfg rand fuel tasks t0 m
  have hinit : RLQ.InvC3 cfg (RLQ.initQ tasks t0) := by
    refine ⟨?_, ?_, ?_⟩
    · intro d hd
      simp [RLQ.initQ] at hd
    · simp [RLQ.initQ, RLQ.minuteSuccessCount]
    · intro mm
      simp [RLQ.initQ, RLQ.minuteSuccessCount]
  exact (RLQ.InvC3_runQ cfg rand fuel _ hinit).2.2 m

/-- C7: `clear()` rejects every not-yet-dispatched task with the
cancellation error (in queue order) and leaves queue depth 0, while a
task already shifted out of the queue (in flight inside the drain loop)
is unaffected: when its iteration resumes it is still dispatched, its
result handle settles with its own outcome, no cancelled task is ever
dispatched, and the next drain iteration finds the empty queue and
stops. -/
theorem C7_clear_cancels_pending_only :
    ∀ (cfg : RLQ.RLConfig) (rand : Nat → Int) (task : RLQ.RTask) (st : RLQ.QState),
      (RLQ.clear st).queue = []
      ∧ (RLQ.clear st).results
          = st.results ++ st.queue.map (fun t => (t.tid, RLQ.ROutcome.cancelled))
      ∧ (RLQ.dispatchTask cfg rand task (RLQ.clear st)).results
          = (RLQ.clear st).results
            ++ [(task.tid,
                 if task.succeeds then RLQ.ROutcome.resolved else RLQ.ROutcome.rejected)]
      ∧ (∃ t : Nat, (RLQ.dispatchTask cfg rand task (RLQ.clear st)).dispatches
          = st.dispatches ++ [⟨t, task.jid, task.succeeds⟩])
      ∧ RLQ.processStep cfg rand (RLQ.dispatchTask cfg rand task (RLQ.clear st))
          = RLQ.dispatchTask cfg rand task (RLQ.clear st) := by
  intro cfg rand task st
  refine ⟨rfl, rfl, RLQ.dispatchTask_results cfg rand task (RLQ.clear st), ?_, ?_⟩
  · exact ⟨_, RLQ.dispatchTask_dispatches cfg rand task (RLQ.clear st)⟩
  · have hq : (RLQ.dispatchTask cfg rand task (RLQ.clear st)).queue = [] :=
      RLQ.dispatchTask_queue cfg rand task (RLQ.clear st)
    unfold RLQ.processStep
    rw [hq]

/-- C9: in every run of the drain loop (any configuration, random
stream, task list, start time), the dispatch sequence of each recipient
is chained so that whenever a dispatch succeeded, the next dispatch for
the same recipient happens at least `perRecipientDelayMs` later — in
particular two back-to-back tasks for one recipient whose first dispatch
succeeds have timestamps at least `perRecipientDelayMs` apart
(rate-limiter.ts lines 115-131). -/
theorem C9_per_recipient_spacing :
    ∀ (cfg : RLQ.RLConfig) (rand : Nat → Int) (fuel : Nat) (tasks : List RLQ.RTask)
      (t0 : Nat) (jid : String),
      List.Chain' (RLQ.spacedRel cfg.perRecipientDelayMs)
        (((RLQ.runQ cfg rand fuel (RLQ.initQ tasks t0)).dispatches).filter
          (fun d => d.jid = jid)) := by
  intro cfg rand fuel tasks t0 jid
  have hinit : RLQ.InvC9 cfg (RLQ.initQ tasks t0) := by
    refine ⟨?_, ?_, ?_⟩
    · intro d hd
      simp [RLQ.initQ] at hd
    · intro j d1 h1
      simp [RLQ.initQ] at h1
    · intro j
      simp [RLQ.initQ]
  exact (RLQ.InvC9_runQ cfg rand fuel _ hinit).2.2 jid

/-- C10: when the head task's operation rejects (with daily and minute
budgets open so the dispatch branch runs), the failure leaves the queue
state untouched: the spacing table is unchanged, neither counter is
incremented (a concurrent minute/day boundary reset may still lower
them), the task's handle is rejected, and the drain loop proceeds — the
queue now holds exactly the remaining tasks and the only new dispatch
record is the failed one (rate-limiter.ts lines 128-137). -/
theorem C10_failure_frame :
    ∀ (cfg : RLQ.RLConfig) (rand : Nat → Int) (st : RLQ.QState) (task : RLQ.RTask)
      (rest : List RLQ.RTask),
      st.queue = task :: rest →
      task.succeeds = false →
      st.sentToday < cfg.messagesPerDay →
      st.sentThisMinute < cfg.messagesPerMinute →
      (RLQ.processStep cfg rand st).lastSentAt = st.lastSentAt
      ∧ (RLQ.processStep cfg rand st).sentThisMinute ≤ st.sentThisMinute
      ∧ (RLQ.processStep cfg rand st).sentToday ≤ st.sentToday
      ∧ (RLQ.processStep cfg rand st).queue = rest
      ∧ (RLQ.processStep cfg rand st).results
          = st.results ++ [(task.tid, RLQ.ROutcome.rejected)]
      ∧ ∃ t : Nat, (RLQ.processStep cfg rand st).dispatches
          = st.dispatches ++ [⟨t, task.jid, false⟩] := by
  intro cfg rand st task rest hq hf hd hm
  have hstep : RLQ.processStep cfg rand st
      = RLQ.dispatchTask cfg rand task { st with queue := rest } := by
    unfold RLQ.processStep
    rw [hq]
    dsimp only
    rw [if_neg (by omega), if_neg (by omega)]
  rw [hstep]
  have hlast := RLQ.dispatchTask_lastSentAt cfg rand task { st with queue := rest }
  rw [if_neg (by simp [hf])] at hlast
  have hsent := RLQ.dispatchTask_sent_le_of_failure cfg rand task { st with queue := rest } hf
  have hres := RLQ.dispatchTask_results cfg rand task { st with queue := rest }
  rw [if_neg (by simp [hf])] at hres
  have hdisp := RLQ.dispatchTask_dispatches cfg rand task { st with queue := rest }
  rw [hf] at hdisp
  exact ⟨hlast, hsent.1, hsent.2,
    RLQ.dispatchTask_queue cfg rand task { st with queue := rest },
    hres, ⟨_, hdisp⟩⟩

/-- Witness for C10 at a concrete failing task with open budgets. -/
theorem C10_witness :
    ((RLQ.processStep ⟨2, 500, 2000⟩ (fun _ => 0) (RLQ.initQ [⟨1, "a", false⟩] 0)).lastSentAt
        = (RLQ.initQ [⟨1, "a", false⟩] 0).lastSentAt
      ∧ (RLQ.processStep ⟨2, 500, 2000⟩ (fun _ => 0)
          (RLQ.initQ [⟨1, "a", false⟩] 0)).sentThisMinute
        ≤ (RLQ.initQ [⟨1, "a", false⟩] 0).sentThisMinute
      ∧ (RLQ.processStep ⟨2, 500, 2000⟩ (fun _ => 0)
          (RLQ.initQ [⟨1, "a", false⟩] 0)).sentToday
        ≤ (RLQ.initQ [⟨1, "a", false⟩] 0).sentToday
      ∧ (RLQ.processStep ⟨2, 500, 2000⟩ (fun _ => 0) (RLQ.initQ [⟨1, "a", false⟩] 0)).queue
        = []
      ∧ (RLQ.processStep ⟨2, 500, 2000⟩ (fun _ => 0) (RLQ.initQ [⟨1, "a", false⟩] 0)).results
        = (RLQ.initQ [⟨1, "a", false⟩] 0).results ++ [(1, RLQ.ROutcome.rejected)]
      ∧ ∃ t : Nat, (RLQ.processStep ⟨2, 500, 2000⟩ (fun _ => 0)
          (RLQ.initQ [⟨1, "a", false⟩] 0)).dispatches
        = (RLQ.initQ [⟨1, "a", false⟩] 0).dispatches ++ [⟨t, "a", false⟩]) :=
  C10_failure_frame ⟨2, 500, 2000⟩ (fun _ => 0) (RLQ.initQ [⟨1, "a", false⟩] 0)
    ⟨1, "a", false⟩ [] (by decide) (by decide) (by decide) (by decide)

/-! ## Webhook fan-out retry (WebhookBridge, C8)

`_sendWithRetry` (src/unnamed/part_001 lines 102-118) posts, and on
failure sleeps `retryDelayMs * 2 ^ attempt` and recurses with
`attempt + 1` while `attempt < retries`; when exhausted it rethrows, and
`_dispatch`'s single `.catch` (lines 95-98) invokes the endpoint's
`onError` once.  `post attempt` is the outcome of the HTTP attempt
numbered `attempt` (true = 2xx); the returned list holds the start time
of every attempt on a clock that advances only through the backoff
sleeps (each failing attempt itself is immediate). -/

namespace WB

def sendWithRetry (post : Nat → Bool) (retries delayMs attempt t : Nat) :
    List Nat × Bool :=
  if post attempt then ([t], true)
  else if h : attempt < retries then
    let d := delayMs * 2 ^ attempt
    let r := sendWithRetry post retries delayMs (attempt + 1) (t + d)
    (t :: r.1, r.2)
  else ([t], false)
termination_by retries - attempt
decreasing_by
  simp_wf
  omega

/-- `_dispatch` for one endpoint and one event: if the endpoint's
subscription set contains the event's kind, run the retrying send; the
result is (number of delivery attempts, number of `onError`
invocations). -/
def dispatchEndpoint (post : Nat → Bool) (subscribed : Bool) (retries delayMs : Nat) :
    Nat × Nat :=
  if subscribed then
    let r := sendWithRetry post retries delayMs 0 0
    (r.1.length, if r.2 then 0 else 1)
  else (0, 0)

/-- Differences between consecutive attempt times: the inter-attempt
delays actually slept. -/
def gaps : List Nat → List Nat
  | a :: b :: rest => (b - a) :: gaps (b :: rest)
  | _ => []

/-- The attempt-time sequence of an always-failing endpoint, one entry
per attempt: `k` further attempts follow the one at `t`, each
`delayMs * 2 ^ attempt` after its predecessor. -/
def attemptTimes (delayMs attempt t : Nat) : Nat → List Nat
  | 0 => [t]
  | k + 1 => t :: attemptTimes delayMs (attempt + 1) (t + delayMs * 2 ^ attempt) k

theorem sendWithRetry_fail (retries delayMs : Nat) :
    ∀ (k attempt t : Nat), retries - attempt = k →
      sendWithRetry (fun _ => false) retries delayMs attempt t
        = (attemptTimes delayMs attempt t k, false) := by
  intro k
  induction k with
  | zero =>
    intro attempt t hk
    rw [sendWithRetry]
    simp only [Bool.false_eq_true, if_false]
    rw [dif_neg (by omega)]
    rfl
  | succ n ih =>
    intro attempt t hk
    rw [sendWithRetry]
    simp only [Bool.false_eq_true, if_false]
    rw [dif_pos (by omega)]
    rw [ih (attempt + 1) (t + delayMs * 2 ^ attempt) (by omega)]
    rfl

theorem attemptTimes_length (delayMs : Nat) :
    ∀ (k attempt t : Nat), (attemptTimes delayMs attempt t k).length = k + 1 := by
  intro k
  induction k with
  | zero => intro attempt t; rfl
  | succ n ih =>
    intro attempt t
    show (attemptTimes delayMs (attempt + 1) (t + delayMs * 2 ^ attempt) n).length + 1 = _
    rw [ih]

theorem attemptTimes_head (delayMs : Nat) (k attempt t : Nat) :
    (attemptTimes delayMs attempt t k).head? = some t := by
  cases k <;> rfl

theorem attemptTimes_gaps (delayMs : Nat) :
    ∀ (k attempt t : Nat),
      gaps (attemptTimes delayMs attempt t k)
        = (List.range k).map (fun i => delayMs * 2 ^ (attempt + i)) := by
  intro k
  induction k with
  | zero => intro attempt t; rfl
  | succ n ih =>
    intro attempt t
    have hh := attemptTimes_head delayMs n (attempt + 1) (t + delayMs * 2 ^ attempt)
    rw [List.range_succ_eq_map, List.map_cons]
    show gaps (t :: attemptTimes delayMs (attempt + 1) (t + delayMs * 2 ^ attempt) n) = _
    cases hc : attemptTimes delayMs (attempt + 1) (t + delayMs * 2 ^ attempt) n with
    | nil =>
      rw [hc] at hh
      simp at hh
    | cons b rest =>
      rw [hc] at hh
      have hb : b = t + delayMs * 2 ^ attempt := by simpa using hh
      subst hb
      show (t + delayMs * 2 ^ attempt - t) :: gaps (_ :: rest) = _
      rw [← hc, ih]
      simp only [Nat.add_sub_cancel_left, List.map_map, Nat.add_zero]
      have htail : List.map (fun i => delayMs * 2 ^ (attempt + 1 + i)) (List.range n)
          = List.map ((fun i => delayMs * 2 ^ (attempt + i)) ∘ Nat.succ) (List.range n) := by
        apply List.map_congr_left
        intro i hi
        simp only [Function.comp_apply]
        have hadd : attempt + 1 + i = attempt + (i + 1) := by omega
        rw [hadd]
      rw [htail]

theorem attemptTimes_chain (delayMs : Nat) (hpos : 0 < delayMs) :
    ∀ (k attempt t : Nat),
      List.Chain' (fun a b => a < b) (attemptTimes delayMs attempt t k) := by
  intro k
  induction k with
  | zero => intro attempt t; exact List.chain'_singleton t
  | succ n ih =>
    intro attempt t
    show List.Chain' _ (t :: attemptTimes delayMs (attempt + 1) (t + delayMs * 2 ^ attempt) n)
    rw [List.chain'_cons']
    refine ⟨?_, ih (attempt + 1) (t + delayMs * 2 ^ attempt)⟩
    intro y hy
    rw [attemptTimes_head delayMs n (attempt + 1) (t + delayMs * 2 ^ attempt)] at hy
    have hy2 : t + delayMs * 2 ^ attempt = y := by simpa using hy
    subst hy2
    have h2 : 0 < 2 ^ attempt := Nat.pos_pow_of_pos attempt (by omega)
    have : 0 < delayMs * 2 ^ attempt := Nat.mul_pos hpos h2
    omega

theorem gaps_chain (delayMs : Nat) (hpos : 0 < delayMs) (k attempt : Nat) :
    List.Chain' (fun a b => a < b)
      ((List.range k).map (fun i => delayMs * 2 ^ (attempt + i))) := by
  rw [List.chain'_map]
  rw [List.chain'_iff_get]
  intro i hi
  rw [List.get_range, List.get_range]
  have h2 : (2:Nat) ^ (attempt + i) < 2 ^ (attempt + (i + 1)) :=
    Nat.pow_lt_pow_right (by omega) (by omega)
  exact mul_lt_mul_of_pos_left h2 hpos

end WB

/-- C8: for an endpoint whose delivery always fails, exactly
`retries + 1` attempts happen in total, strictly sequentially (attempt
times strictly increase); the inter-attempt delays are exactly
`retryDelayMs * 2 ^ 0, retryDelayMs * 2 ^ 1, …`, hence strictly
increasing; the send reports exhaustion and `onError` fires exactly
once. -/
theorem C8_retry_attempts_and_backoff :
    ∀ (retries delayMs : Nat), 0 < delayMs →
      (WB.sendWithRetry (fun _ => false) retries delayMs 0 0).1.length = retries + 1
      ∧ (WB.sendWithRetry (fun _ => false) retries delayMs 0 0).2 = false
      ∧ WB.gaps (WB.sendWithRetry (fun _ => false) retries delayMs 0 0).1
          = (List.range retries).map (fun k => delayMs * 2 ^ k)
      ∧ List.Chain' (fun a b => a < b)
          (WB.sendWithRetry (fun _ => false) retries delayMs 0 0).1
      ∧ List.Chain' (fun a b => a < b)
          (WB.gaps (WB.sendWithRetry (fun _ => false) retries delayMs 0 0).1)
      ∧ WB.dispatchEndpoint (fun _ => false) true retries delayMs = (retries + 1, 1) := by
  intro retries delayMs hpos
  have hsend := WB.sendWithRetry_fail retries delayMs retries 0 0 (by omega)
  rw [hsend]
  have hgaps := WB.attemptTimes_gaps delayMs retries 0 0
  refine ⟨?_, rfl, ?_, ?_, ?_, ?_⟩
  · exact WB.attemptTimes_length delayMs retries 0 0
  · rw [hgaps]
    apply List.map_congr_left
    intro i hi
    rw [Nat.zero_add]
  · exact WB.attemptTimes_chain delayMs hpos retries 0 0
  · rw [hgaps]
    exact WB.gaps_chain delayMs hpos retries 0
  · unfold WB.dispatchEndpoint
    rw [if_pos rfl, hsend]
    show (_, if false = true then 0 else 1) = _
    rw [if_neg (by simp)]
    rw [WB.attemptTimes_length delayMs retries 0 0]

/-- Witness for C8 at `retries = 3`, `retryDelayMs = 1000`: 4 attempts,
delays 1000, 2000, 4000, one `onError`. -/
theorem C8_witness :
    ((WB.sendWithRetry (fun _ => false) 3 1000 0 0).1.length = 3 + 1
      ∧ (WB.sendWithRetry (fun _ => false) 3 1000 0 0).2 = false
      ∧ WB.gaps (WB.sendWithRetry (fun _ => false) 3 1000 0 0).1
          = (List.range 3).map (fun k => 1000 * 2 ^ k)
      ∧ List.Chain' (fun a b => a < b) (WB.sendWithRetry (fun _ => false) 3 1000 0 0).1
      ∧ List.Chain' (fun a b => a < b)
          (WB.gaps (WB.sendWithRetry (fun _ => false) 3 1000 0 0).1)
      ∧ WB.dispatchEndpoint (fun _ => false) true 3 1000 = (3 + 1, 1))
    ∧ (List.range 3).map (fun k => 1000 * 2 ^ k) = [1000, 2000, 4000] :=
  ⟨C8_retry_attempts_and_backoff 3 1000 (by decide), by decide⟩

end MantraBaileys
